import Mathlib

/-!
Verification of the GOmapping identity-resolution and reconciliation core.

The registry frontend (GOsummary.jsx, MappingDashboard.jsx and companions)
is embedded directly from the source.  The backend components
(SimilarityEngine, DuplicateGrouper, MasterSelector, SyncReconciler,
DecisionLedger) are not part of the available sources; they are modelled
from the specification, as marked on each definition.
-/

/-! ## SimilarityEngine (modelled from the spec, section 4.1) -/

/-- Modelled from the spec: SimilarityEngine normalization.  Case-fold and
turn every non-alphanumeric character into a space. -/
def normChar (c : Char) : Char :=
  if c.isAlpha || c.isDigit then c.toLower else ' '

/-- Modelled from the spec: common organizational suffixes stripped during
normalization. -/
def orgSuffixes : List (List Char) :=
  ["inc", "ltd", "llc", "intl", "international", "org", "organization",
   "organisation", "foundation"].map String.toList

/-- Split a character list on spaces (helper for tokenization). -/
def splitSpacesAux : List Char → List Char → List (List Char)
  | [], acc => [acc.reverse]
  | c :: cs, acc =>
      if c = ' ' then acc.reverse :: splitSpacesAux cs []
      else splitSpacesAux cs (c :: acc)

/-- Modelled from the spec: tokenize an organization name — normalize each
character, split on whitespace, drop empty tokens and common
organizational suffixes. -/
def nameTokens (s : String) : List (List Char) :=
  (splitSpacesAux (s.toList.map normChar) []).filter
    (fun t => decide (t ≠ [] ∧ t ∉ orgSuffixes))

/-- Modelled from the spec: the normalized full name used for the
edit-distance component (tokens rejoined with single spaces). -/
def normFullName (s : String) : List Char :=
  List.intercalate [' '] (nameTokens s)

/-- Modelled from the spec: acronym normalization — keep alphanumeric
characters, case-folded. -/
def normAcronym (s : String) : List Char :=
  (s.toList.filter (fun c => c.isAlpha || c.isDigit)).map Char.toLower

/-- Modelled from the spec: character edit distance (unit-cost Levenshtein)
on normalized names. -/
def lev : List Char → List Char → Nat
  | [], ys => ys.length
  | x :: xs, [] => (x :: xs).length
  | x :: xs, y :: ys =>
      if x = y then lev xs ys
      else 1 + min (lev xs (y :: ys)) (min (lev (x :: xs) ys) (lev xs ys))
termination_by a b => a.length + b.length

/-- Modelled from the spec: token-set overlap measure, scaled to [0,100]
(tokens shared over tokens in the union). -/
def tokenScore (ta tb : List (List Char)) : Nat :=
  100 * (ta.toFinset ∩ tb.toFinset).card / (ta.toFinset ∪ tb.toFinset).card

/-- Modelled from the spec: edit-distance-derived ratio on the normalized
full strings, scaled to [0,100]. -/
def editScore (a b : List Char) : Nat :=
  let m := max a.length b.length
  if m = 0 then 0 else 100 * (m - lev a b) / m

structure NameRecord where
  name : String
  acronym : String
deriving DecidableEq

/-- Modelled from the spec: fixed-weight combination (60% token overlap,
40% edit ratio) of the two measures, which lands in [0,100]. -/
def combinedScore (A B : NameRecord) : Nat :=
  (60 * tokenScore (nameTokens A.name) (nameTokens B.name) +
   40 * editScore (normFullName A.name) (normFullName B.name)) / 100

/-- Modelled from the spec: SimilarityEngine score.  Malformed or empty
names (no tokens after normalization) score 0 against anything; an exact
acronym match, when both acronyms are present, raises the score to at
least 90. -/
def similarity (A B : NameRecord) : Nat :=
  if nameTokens A.name = [] ∨ nameTokens B.name = [] then 0
  else if normAcronym A.acronym ≠ [] ∧ normAcronym A.acronym = normAcronym B.acronym then
    max (combinedScore A B) 90
  else combinedScore A B

/-! ## MasterSelector (modelled from the spec, section 4.3) -/

/-- A duplicate-group member as seen by MasterSelector: a
GlobalOrganization identifier with its current InstanceOrganization usage
count. -/
structure Member where
  goId : Nat
  usage : Nat
deriving DecidableEq

/-- Modelled from the spec: the MasterSelector preference — highest usage
count wins, ties broken by lowest GlobalOrganization identifier. -/
def better (a b : Member) : Member :=
  if a.usage < b.usage ∨ (a.usage = b.usage ∧ b.goId < a.goId) then b else a

/-- Fold step threading an optional current best through the member list. -/
def betterOpt (o : Option Member) (m : Member) : Option Member :=
  match o with
  | none => some m
  | some a => some (better a m)

/-- Modelled from the spec: MasterSelector — the recommended master of a
group's member list (none only for an empty group). -/
def selectMaster (l : List Member) : Option Member :=
  l.foldl betterOpt none

/-- The spec's selection rule as a relation: `m` beats `o` when `o` has
strictly lower usage, or equal usage and an identifier at least as large. -/
def dominates (m o : Member) : Prop :=
  o.usage < m.usage ∨ (o.usage = m.usage ∧ m.goId ≤ o.goId)

/-! ## DuplicateGrouper (modelled from the spec, section 4.2) -/

/-- Modelled from the spec: an edge of the duplicate graph exists between
two organization identifiers when the pairwise similarity score meets the
threshold. -/
def scoreEdge (score : Nat → Nat → Nat) (thr : Nat) (x y : Nat) : Bool :=
  decide (thr ≤ score x y)

/-- One step of connected-component accumulation: the new organization is
merged with every existing component it links to; untouched components are
kept as they are. -/
def addOrg (edge : Nat → Nat → Bool) (comps : List (List Nat)) (x : Nat) :
    List (List Nat) :=
  (x :: (comps.filter (fun c => c.any (edge x))).flatten) ::
    comps.filter (fun c => ! c.any (edge x))

/-- Modelled from the spec: connected components of the threshold graph
over the organization identifiers, via an explicit adjacency-merge
structure. -/
def components (edge : Nat → Nat → Bool) (orgs : List Nat) : List (List Nat) :=
  orgs.foldl (addOrg edge) []

/-- Modelled from the spec: components with at least two members become
DuplicateGroups. -/
def duplicateGroups (edge : Nat → Nat → Bool) (orgs : List Nat) : List (List Nat) :=
  (components edge orgs).filter (fun c => decide (2 ≤ c.length))

/-- Modelled from the spec: singleton components are reported separately
as unique organizations, never dropped. -/
def uniqueComponents (edge : Nat → Nat → Bool) (orgs : List Nat) : List (List Nat) :=
  (components edge orgs).filter (fun c => decide (c.length = 1))

/-- A concrete symmetric score used to instantiate the grouper theorems:
pairs summing to 3 score exactly 70, pairs summing to 7 score 69. -/
def w6score (x y : Nat) : Nat :=
  if x + y = 3 then 70 else if x + y = 7 then 69 else 0

/-! ## DecisionLedger and registry store (modelled from the spec, sections 3 and 4.5) -/

inductive ExecStatus
  | pending
  | executed
  | cancelled
deriving DecidableEq

structure MergeDecision where
  decisionId : Nat
  instanceOrgId : Nat
  originalGlobalOrgId : Nat
  targetGlobalOrgId : Nat
  executionStatus : ExecStatus
deriving DecidableEq

structure GlobalOrg where
  globalOrgId : Nat
  goName : String
  goAcronym : String
deriving DecidableEq

structure InstanceOrg where
  instanceOrgId : Nat
  instName : String
  instAcronym : String
  currentMapping : Nat
deriving DecidableEq

inductive RunOutcome
  | success
  | failure
deriving DecidableEq

structure SyncRun where
  outcome : RunOutcome
  createdCount : Nat
  updatedCount : Nat
deriving DecidableEq

structure Store where
  globals : List GlobalOrg
  instances : List InstanceOrg
  decisions : List MergeDecision
  syncRuns : List SyncRun
  reportCacheValid : Bool
deriving DecidableEq

inductive LedgerError
  | validationError
  | notFoundError
deriving DecidableEq

/-- Modelled from the spec: look up a decision by identifier. -/
def findDecision (s : Store) (did : Nat) : Option MergeDecision :=
  s.decisions.find? (fun d => decide (d.decisionId = did))

/-- Modelled from the spec: rewrite one decision's execution status in the
ledger. -/
def setDecisionStatus (ds : List MergeDecision) (did : Nat) (st : ExecStatus) :
    List MergeDecision :=
  ds.map (fun d => if d.decisionId = did then { d with executionStatus := st } else d)

/-- Modelled from the spec: executing a decision applies the remap to the
referenced InstanceOrganization's current-mapping pointer. -/
def applyRemap (insts : List InstanceOrg) (iid target : Nat) : List InstanceOrg :=
  insts.map (fun i =>
    if i.instanceOrgId = iid then { i with currentMapping := target } else i)

/-- Modelled from the spec: DecisionLedger UpdateStatus — fails with a
ValidationError unless the decision is currently pending and the new
status is executed or cancelled; a missing decision gives NotFoundError;
the transition to executed applies the remap, cancellation has no registry
side effect.  A returned error leaves the caller's store untouched. -/
def updateStatus (s : Store) (did : Nat) (newStatus : ExecStatus) :
    Except LedgerError Store :=
  match findDecision s did with
  | none => .error .notFoundError
  | some d =>
      if d.executionStatus ≠ .pending then .error .validationError
      else
        match newStatus with
        | .executed =>
            .ok { s with
              decisions := setDecisionStatus s.decisions did .executed,
              instances := applyRemap s.instances d.instanceOrgId d.targetGlobalOrgId }
        | .cancelled =>
            .ok { s with decisions := setDecisionStatus s.decisions did .cancelled }
        | .pending => .error .validationError

/-! ## SyncReconciler (modelled from the spec, section 4.4) -/

structure RawRecord where
  instanceKey : Nat
  rawName : String
  rawAcronym : String
  parentGlobalOrgId : Nat
  parentGlobalName : String
deriving DecidableEq

inductive FetchError
  | externalFetchError
deriving DecidableEq

/-- Modelled from the spec: whether this instance's current-mapping pointer
was established by an executed MergeDecision. -/
def hasExecutedDecision (ds : List MergeDecision) (iid : Nat) : Bool :=
  ds.any (fun d => decide (d.instanceOrgId = iid ∧ d.executionStatus = .executed))

/-- Modelled from the spec: upsert one fetched record — create unseen
global parents and unseen instances mapped to their declared parent; for
seen instances update the mutable display fields but never overwrite a
current-mapping pointer established by an executed decision (the
sticky-remap rule). -/
def upsertRecord (s : Store) (r : RawRecord) : Store :=
  let gs :=
    if s.globals.any (fun g => decide (g.globalOrgId = r.parentGlobalOrgId)) then s.globals
    else s.globals ++ [⟨r.parentGlobalOrgId, r.parentGlobalName, ""⟩]
  match s.instances.find? (fun i => decide (i.instanceOrgId = r.instanceKey)) with
  | some _ =>
      { s with
        globals := gs,
        instances := s.instances.map (fun i =>
          if i.instanceOrgId = r.instanceKey then
            { i with
              instName := r.rawName,
              instAcronym := r.rawAcronym,
              currentMapping :=
                if hasExecutedDecision s.decisions i.instanceOrgId then i.currentMapping
                else r.parentGlobalOrgId }
          else i) }
  | none =>
      { s with
        globals := gs,
        instances := s.instances ++ [⟨r.instanceKey, r.rawName, r.rawAcronym, r.parentGlobalOrgId⟩] }

/-- Modelled from the spec: whether a fetched record is unseen (drives the
created/updated counters of the SyncRun row). -/
def isNewInstance (s : Store) (r : RawRecord) : Bool :=
  ! s.instances.any (fun i => decide (i.instanceOrgId = r.instanceKey))

/-- Fold step applying one record and counting created/updated rows. -/
def upsertStep (acc : Store × Nat × Nat) (r : RawRecord) : Store × Nat × Nat :=
  if isNewInstance acc.1 r then (upsertRecord acc.1 r, acc.2.1 + 1, acc.2.2)
  else (upsertRecord acc.1 r, acc.2.1, acc.2.2 + 1)

/-- Modelled from the spec: one SyncReconciler run.  A failed fetch leaves
the store untouched apart from an appended failed SyncRun row; a
successful fetch merges every record, appends a successful SyncRun row and
invalidates the report cache (only success invalidates it). -/
def reconcile (s : Store) (fetch : Except FetchError (List RawRecord)) : Store :=
  match fetch with
  | .error _ => { s with syncRuns := s.syncRuns ++ [⟨.failure, 0, 0⟩] }
  | .ok recs =>
      let acc := recs.foldl upsertStep (s, 0, 0)
      { acc.1 with
        syncRuns := acc.1.syncRuns ++ [⟨.success, acc.2.1, acc.2.2⟩],
        reportCacheValid := false }

/-- The currently stored mapping pointer of an instance organization. -/
def mappingOf (s : Store) (iid : Nat) : Option Nat :=
  (s.instances.find? (fun i => decide (i.instanceOrgId = iid))).map InstanceOrg.currentMapping

/-! ## Single-flight reconciliation guard (modelled from the spec, section 5) -/

inductive TriggerResult
  | started
  | conflictError
deriving DecidableEq

structure SyncGuardState where
  inFlight : Nat
deriving DecidableEq

/-- Modelled from the spec: the mutual-exclusion trigger — a second
trigger while a run is in flight reports sync-in-progress and starts
nothing; an idle trigger starts exactly one run. -/
def triggerSyncGuard (s : SyncGuardState) : TriggerResult × SyncGuardState :=
  if 0 < s.inFlight then (.conflictError, s) else (.started, ⟨s.inFlight + 1⟩)

/-- A run completing. -/
def finishSyncRun (s : SyncGuardState) : SyncGuardState :=
  ⟨s.inFlight - 1⟩

/-- The transition system of the guard: triggers and completions. -/
inductive GuardStep : SyncGuardState → SyncGuardState → Prop
  | trigger (s : SyncGuardState) : GuardStep s (triggerSyncGuard s).2
  | finish (s : SyncGuardState) : GuardStep s (finishSyncRun s)

/-- States reachable from the idle initial state. -/
inductive GuardReachable : SyncGuardState → Prop
  | init : GuardReachable ⟨0⟩
  | step {s t : SyncGuardState} : GuardReachable s → GuardStep s t → GuardReachable t

/-- Embedded from GOsummary.jsx triggerSync (the syncing guard): the
frontend refuses to begin a new sync while one is already running. -/
def frontendTriggerStarts (syncing : Bool) : Bool :=
  ! syncing

/-! ## Batch decision recording (embedded from GOsummary.jsx recordAllDecisions) -/

/-- Embedded from GOsummary.jsx recordAllDecisions: one loop iteration —
a successful create increments successCount, a failed one increments
failCount, and either way the item was attempted and the loop continues
with the rest. -/
def recordStep {α : Type} (outcome : α → Bool) (acc : Nat × Nat × List α) (i : α) :
    Nat × Nat × List α :=
  if outcome i then (acc.1 + 1, acc.2.1, acc.2.2 ++ [i])
  else (acc.1, acc.2.1 + 1, acc.2.2 ++ [i])

/-- Embedded from GOsummary.jsx recordAllDecisions: the per-item loop over
the member's instance organizations.  Returns the success count, the
failure count and the attempted items in order. -/
def recordAllDecisions {α : Type} (outcome : α → Bool) (insts : List α) :
    Nat × Nat × List α :=
  insts.foldl (recordStep outcome) (0, 0, [])

/-! ## Mapping-dashboard filters (embedded from MappingDashboard.jsx and
from the dashboard component embedded in GOsummary.jsx) -/

structure DashMapping where
  fund_name : Option String
  risk_level : Option String
  instance_org_type : Option String
  match_percent : Option Int
deriving DecidableEq

structure DashGoItem where
  global_org_name : String
  mappings : List DashMapping
deriving DecidableEq

structure DashFilters where
  goFilter : Option String
  poolFundFilter : Option String
  riskFilter : Option String
  instanceOrgTypeFilter : Option String
deriving DecidableEq

/-- Embedded from both dashboards: whether any mapping-level filter is
active (JS truthiness of poolFundFilter, riskFilter or
instanceOrgTypeFilter). -/
def anyMappingFilter (f : DashFilters) : Bool :=
  f.poolFundFilter.isSome || f.riskFilter.isSome || f.instanceOrgTypeFilter.isSome

/-- Embedded from MappingDashboard.jsx (filter effect): keep a mapping when
every active filter matches; the risk filter compares the stored
risk_level field. -/
def mappingKeepStandalone (f : DashFilters) (m : DashMapping) : Bool :=
  (match f.poolFundFilter with
   | none => true
   | some v => decide (m.fund_name = some v)) &&
  (match f.riskFilter with
   | none => true
   | some v => decide (m.risk_level = some v)) &&
  (match f.instanceOrgTypeFilter with
   | none => true
   | some v => decide (m.instance_org_type = some v))

/-- Embedded from MappingDashboard.jsx: process one organization — filter
its mappings, and drop it when no mapping survives while a mapping-level
filter is active. -/
def filterGoItemStandalone (f : DashFilters) (goItem : DashGoItem) : Option DashGoItem :=
  let fm := goItem.mappings.filter (mappingKeepStandalone f)
  if fm.length = 0 ∧ anyMappingFilter f = true then none
  else some { goItem with mappings := fm }

/-- Embedded from MappingDashboard.jsx: the full filter pipeline over the
dashboard dataset. -/
def filterDashStandalone (f : DashFilters) (data : List DashGoItem) : List DashGoItem :=
  data.filterMap (fun goItem =>
    match f.goFilter with
    | some v =>
        if goItem.global_org_name ≠ v then none
        else filterGoItemStandalone f goItem
    | none => filterGoItemStandalone f goItem)

/-- Embedded from GOsummary.jsx (embedded dashboard): derive the risk
bucket from the match percent. -/
def getRiskFromPercent (percent : Option Int) : Option String :=
  match percent with
  | none => none
  | some p => if p ≥ 85 then some "LOW" else if p ≥ 60 then some "MEDIUM" else some "HIGH"

/-- Embedded from GOsummary.jsx (embedded dashboard filter effect): keep a
mapping when every active filter matches; the risk filter compares the
risk derived from match_percent. -/
def mappingKeepEmbedded (f : DashFilters) (m : DashMapping) : Bool :=
  (match f.poolFundFilter with
   | none => true
   | some v => decide (m.fund_name = some v)) &&
  (match f.riskFilter with
   | none => true
   | some v => decide (getRiskFromPercent m.match_percent = some v)) &&
  (match f.instanceOrgTypeFilter with
   | none => true
   | some v => decide (m.instance_org_type = some v))

/-- Embedded from GOsummary.jsx (embedded dashboard): process one
organization under the embedded filter. -/
def filterGoItemEmbedded (f : DashFilters) (goItem : DashGoItem) : Option DashGoItem :=
  let fm := goItem.mappings.filter (mappingKeepEmbedded f)
  if fm.length = 0 ∧ anyMappingFilter f = true then none
  else some { goItem with mappings := fm }

/-- Embedded from GOsummary.jsx (embedded dashboard): the full filter
pipeline over the dashboard dataset. -/
def filterDashEmbedded (f : DashFilters) (data : List DashGoItem) : List DashGoItem :=
  data.filterMap (fun goItem =>
    match f.goFilter with
    | some v =>
        if goItem.global_org_name ≠ v then none
        else filterGoItemEmbedded f goItem
    | none => filterGoItemEmbedded f goItem)

/-! ## Pagination (embedded from GOsummary.jsx) -/

/-- Embedded from GOsummary.jsx clampPage. -/
def clampPage (page totalPages : Int) : Int :=
  if totalPages ≤ 0 then 1
  else if page < 1 then 1
  else if page > totalPages then totalPages
  else page

/-- Embedded from GOsummary.jsx: total pages, ceil of length over items
per page, with the JS `or 1` fallback for an empty list. -/
def jsTotalPages (len ipp : Nat) : Nat :=
  max ((len + ipp - 1) / ipp) 1

/-- Embedded from GOsummary.jsx: the paginated slice — the start index
comes from the clamped page, and the slice takes itemsPerPage entries. -/
def paginateSlice {α : Type} (l : List α) (page : Int) (ipp : Nat) : List α :=
  (l.drop (((clampPage page ((jsTotalPages l.length ipp : Int))).toNat - 1) * ipp)).take ipp

/-- The sticky-remap invariant for instance `iid` and target `tgt`: the
ledger holds an executed decision for the instance and the stored
current-mapping pointer equals the target. -/
def stickyInv (iid tgt : Nat) (s : Store) : Prop :=
  hasExecutedDecision s.decisions iid = true ∧ mappingOf s iid = some tgt

/-! ## Concrete inputs used by the witness theorems -/

/-- A ledger store holding one pending decision (id 1) remapping instance
10 from global org 2 to global org 1. -/
def w2decision : MergeDecision := ⟨1, 10, 2, 1, .pending⟩

/-- A registry store with instance 10 currently mapped to global org 2 and
the pending decision above. -/
def w2store : Store := ⟨[], [⟨10, "", "", 2⟩], [w2decision], [], true⟩

/-- The store after executing decision 1: the decision is terminal and the
instance is remapped to global org 1. -/
def w2store2 : Store := ⟨[], [⟨10, "", "", 1⟩], [⟨1, 10, 2, 1, .executed⟩], [], true⟩

/-- An empty registry store with a valid report cache. -/
def w7store : Store := ⟨[], [], [], [], true⟩

/-- A fetched snapshot still reporting instance 10 under its original
parent, global org 2. -/
def w1record : RawRecord := ⟨10, "", "", 2, ""⟩

/-- A dashboard mapping with no stored risk level but a high match
percent. -/
def w9mapping : DashMapping := ⟨none, none, none, some 90⟩

/-- A dashboard organization carrying only the mapping above. -/
def w9item : DashGoItem := ⟨"GO1", [w9mapping]⟩

/-- A filter combination selecting only LOW-risk mappings. -/
def w9filters : DashFilters := ⟨none, none, some "LOW", none⟩

/-- A dashboard organization whose stored risk level agrees with the risk
derived from its match percent. -/
def w9consItem : DashGoItem := ⟨"GO1", [⟨some "CBPF", some "LOW", some "NGO", some 90⟩]⟩

/-! ## Theorems -/

theorem lev_nil_right (a : List Char) : lev a [] = a.length := by
  cases a <;> simp [lev]

theorem lev_comm_aux : ∀ (n : Nat) (a b : List Char),
    a.length + b.length ≤ n → lev a b = lev b a := by
  intro n
  induction n with
  | zero =>
      intro a b h
      have ha : a = [] := by
        cases a <;> simp_all
      have hb : b = [] := by
        cases b <;> simp_all
      subst ha; subst hb; rfl
  | succ n ih =>
      intro a b h
      match a, b with
      | [], b => simp [lev, lev_nil_right]
      | x :: xs, [] => simp [lev, lev_nil_right]
      | x :: xs, y :: ys =>
          simp only [lev]
          by_cases hxy : x = y
          · rw [if_pos hxy, if_pos hxy.symm]
            apply ih
            simp at h ⊢
            omega
          · rw [if_neg hxy, if_neg (fun hyx => hxy hyx.symm)]
            have h1 : lev xs (y :: ys) = lev (y :: ys) xs := by
              apply ih; simp at h ⊢; omega
            have h2 : lev (x :: xs) ys = lev ys (x :: xs) := by
              apply ih; simp at h ⊢; omega
            have h3 : lev xs ys = lev ys xs := by
              apply ih; simp at h ⊢; omega
            rw [h1, h2, h3]
            omega

theorem lev_comm (a b : List Char) : lev a b = lev b a :=
  lev_comm_aux (a.length + b.length) a b (le_refl _)

theorem tokenScore_comm (ta tb : List (List Char)) :
    tokenScore ta tb = tokenScore tb ta := by
  unfold tokenScore
  rw [Finset.inter_comm, Finset.union_comm]

theorem editScore_comm (a b : List Char) : editScore a b = editScore b a := by
  unfold editScore
  rw [lev_comm, Nat.max_comm]

theorem combinedScore_comm (A B : NameRecord) :
    combinedScore A B = combinedScore B A := by
  unfold combinedScore
  rw [tokenScore_comm, editScore_comm]

theorem hundred_mul_div_le {a b : Nat} (h : a ≤ b) : 100 * a / b ≤ 100 := by
  rcases Nat.eq_zero_or_pos b with hb | hb
  · subst hb
    simp_all
  · calc 100 * a / b ≤ 100 * b / b := Nat.div_le_div_right (by omega)
    _ = 100 := Nat.mul_div_cancel 100 hb

theorem tokenScore_le (ta tb : List (List Char)) : tokenScore ta tb ≤ 100 := by
  unfold tokenScore
  exact hundred_mul_div_le (Finset.card_le_card
    (subset_trans Finset.inter_subset_left Finset.subset_union_left))

theorem editScore_le (a b : List Char) : editScore a b ≤ 100 := by
  unfold editScore
  simp only []
  split
  · omega
  · exact hundred_mul_div_le (Nat.sub_le _ _)

theorem combinedScore_le (A B : NameRecord) : combinedScore A B ≤ 100 := by
  unfold combinedScore
  have h1 := tokenScore_le (nameTokens A.name) (nameTokens B.name)
  have h2 := editScore_le (normFullName A.name) (normFullName B.name)
  calc (60 * tokenScore (nameTokens A.name) (nameTokens B.name) +
        40 * editScore (normFullName A.name) (normFullName B.name)) / 100
      ≤ (60 * 100 + 40 * 100) / 100 := Nat.div_le_div_right (by omega)
    _ = 100 := by norm_num

theorem similarity_comm (A B : NameRecord) : similarity A B = similarity B A := by
  unfold similarity
  by_cases hg : nameTokens A.name = [] ∨ nameTokens B.name = []
  · rw [if_pos hg, if_pos (Or.symm hg)]
  · rw [if_neg hg, if_neg (fun h => hg (Or.symm h))]
    by_cases ha : normAcronym A.acronym ≠ [] ∧ normAcronym A.acronym = normAcronym B.acronym
    · have ha' : normAcronym B.acronym ≠ [] ∧ normAcronym B.acronym = normAcronym A.acronym := by
        refine ⟨?_, ha.2.symm⟩
        rw [← ha.2]; exact ha.1
      rw [if_pos ha, if_pos ha', combinedScore_comm]
    · have ha' : ¬ (normAcronym B.acronym ≠ [] ∧ normAcronym B.acronym = normAcronym A.acronym) := by
        intro h
        exact ha ⟨by rw [← h.2]; exact h.1, h.2.symm⟩
      rw [if_neg ha, if_neg ha', combinedScore_comm]

theorem similarity_le (A B : NameRecord) : similarity A B ≤ 100 := by
  unfold similarity
  split
  · omega
  · split
    · exact max_le (combinedScore_le A B) (by omega)
    · exact combinedScore_le A B

theorem similarity_empty_left (A B : NameRecord) (h : nameTokens A.name = []) :
    similarity A B = 0 := by
  unfold similarity
  rw [if_pos (Or.inl h)]

/-- C4: for every pair of GlobalOrganization name records A and B,
similarity(A,B) equals similarity(B,A), the score lies in [0,100], and a
malformed or empty name (one that normalizes to no tokens) scores 0
against anything. -/
theorem C4_similarity_symmetric_bounded (A B : NameRecord) :
    similarity A B = similarity B A ∧ similarity A B ≤ 100 ∧
    (nameTokens A.name = [] → similarity A B = 0 ∧ similarity B A = 0) := by
  refine ⟨similarity_comm A B, similarity_le A B, fun h => ⟨similarity_empty_left A B h, ?_⟩⟩
  rw [← similarity_comm A B]
  exact similarity_empty_left A B h

/-- Witness for C4 at concrete inputs: a punctuation-only name scores 0
against a real organization record in both directions. -/
theorem C4_witness :
    similarity ⟨"++--", "XY"⟩ ⟨"Save the Children", "SC"⟩ = 0 ∧
    similarity ⟨"Save the Children", "SC"⟩ ⟨"++--", "XY"⟩ = 0 :=
  (C4_similarity_symmetric_bounded ⟨"++--", "XY"⟩ ⟨"Save the Children", "SC"⟩).2.2 (by decide)

theorem better_eq_or (a b : Member) : better a b = a ∨ better a b = b := by
  unfold better
  split <;> simp

theorem better_comm (a b : Member) : better a b = better b a := by
  cases a; cases b
  unfold better
  split_ifs <;> simp_all [Member.mk.injEq] <;> omega

theorem better_assoc (a b c : Member) :
    better (better a b) c = better a (better b c) := by
  cases a; cases b; cases c
  unfold better
  split_ifs <;> simp_all [Member.mk.injEq] <;> omega

theorem betterOpt_rightComm (o : Option Member) (a b : Member) :
    betterOpt (betterOpt o a) b = betterOpt (betterOpt o b) a := by
  cases o with
  | none => simp only [betterOpt]; rw [better_comm]
  | some c => simp only [betterOpt]; rw [better_assoc, better_comm a b, ← better_assoc]

theorem foldl_betterOpt_perm {l1 l2 : List Member} (h : l1.Perm l2) :
    ∀ o, l1.foldl betterOpt o = l2.foldl betterOpt o := by
  induction h with
  | nil => intro o; rfl
  | cons x h ih => intro o; simp only [List.foldl_cons]; exact ih _
  | swap x y l => intro o; simp only [List.foldl_cons]; rw [betterOpt_rightComm]
  | trans h1 h2 ih1 ih2 => intro o; rw [ih1 o, ih2 o]

theorem dominates_refl (m : Member) : dominates m m := Or.inr ⟨rfl, le_refl _⟩

theorem dominates_trans {a b c : Member} (h1 : dominates a b) (h2 : dominates b c) :
    dominates a c := by
  unfold dominates at *
  omega

theorem better_dominates_left (a b : Member) : dominates (better a b) a := by
  cases a; cases b
  simp only [better, dominates]
  split_ifs <;> simp_all <;> omega

theorem better_dominates_right (a b : Member) : dominates (better a b) b := by
  cases a; cases b
  simp only [better, dominates]
  split_ifs <;> simp_all <;> omega

theorem foldl_better_spec : ∀ (l : List Member) (a : Member),
    (l.foldl better a = a ∨ l.foldl better a ∈ l) ∧
    dominates (l.foldl better a) a ∧ ∀ o ∈ l, dominates (l.foldl better a) o := by
  intro l
  induction l with
  | nil => intro a; exact ⟨Or.inl rfl, dominates_refl a, by simp⟩
  | cons x xs ih =>
      intro a
      obtain ⟨hmem, hdom, hall⟩ := ih (better a x)
      simp only [List.foldl_cons]
      refine ⟨?_, dominates_trans hdom (better_dominates_left a x), ?_⟩
      · rcases hmem with h | h
        · rcases better_eq_or a x with h2 | h2
          · exact Or.inl (h.trans h2)
          · refine Or.inr ?_
            rw [h, h2]
            exact List.mem_cons_self x xs
        · exact Or.inr (List.mem_cons_of_mem x h)
      · intro o ho
        rcases List.mem_cons.mp ho with rfl | ho
        · exact dominates_trans hdom (better_dominates_right a o)
        · exact hall o ho

theorem foldl_betterOpt_some (xs : List Member) (a : Member) :
    xs.foldl betterOpt (some a) = some (xs.foldl better a) := by
  induction xs generalizing a with
  | nil => rfl
  | cons x xs ih => simp only [List.foldl_cons, betterOpt]; exact ih (better a x)

/-- C5: for every non-empty DuplicateGroup member list, the recommended
master is a member that dominates every member (strictly higher usage
count, or equal usage and lowest identifier), and the selection is
invariant under permutation of the input (no dependence on traversal
order). -/
theorem C5_selectMaster_correct (l : List Member) :
    (∀ l2, l.Perm l2 → selectMaster l = selectMaster l2) ∧
    (l ≠ [] → ∃ m, selectMaster l = some m ∧ m ∈ l ∧ ∀ o ∈ l, dominates m o) := by
  constructor
  · intro l2 h
    exact foldl_betterOpt_perm h none
  · intro hne
    match l with
    | x :: xs =>
      obtain ⟨hmem, hdom, hall⟩ := foldl_better_spec xs x
      refine ⟨xs.foldl better x, ?_, ?_, ?_⟩
      · simp only [selectMaster, List.foldl_cons, betterOpt]
        exact foldl_betterOpt_some xs x
      · rcases hmem with h | h
        · rw [h]; exact List.mem_cons_self x xs
        · exact List.mem_cons_of_mem x h
      · intro o ho
        rcases List.mem_cons.mp ho with rfl | ho
        · exact hdom
        · exact hall o ho

/-- Witness for C5 at the spec's scenario: ids 1 (usage 40) and 2
(usage 5); the selection agrees across a permuted traversal and is
non-empty. -/
theorem C5_witness :
    selectMaster [⟨2, 5⟩, ⟨1, 40⟩] = selectMaster [⟨1, 40⟩, ⟨2, 5⟩] ∧
    selectMaster [⟨2, 5⟩, ⟨1, 40⟩] ≠ none := by
  constructor
  · exact (C5_selectMaster_correct [⟨2, 5⟩, ⟨1, 40⟩]).1 [⟨1, 40⟩, ⟨2, 5⟩] (by decide)
  · obtain ⟨m, hm, -, -⟩ := (C5_selectMaster_correct [⟨2, 5⟩, ⟨1, 40⟩]).2 (by decide)
    simp [hm]

theorem mem_addOrg_of_mem {edge : Nat → Nat → Bool} {comps : List (List Nat)}
    {z : Nat} {c : List Nat} (hc : c ∈ comps) (hz : z ∈ c) (x : Nat) :
    ∃ c2 ∈ addOrg edge comps x, z ∈ c2 := by
  by_cases h : c.any (edge x) = true
  · exact ⟨_, List.mem_cons_self _ _,
      List.mem_cons_of_mem x (List.mem_flatten.mpr ⟨c, List.mem_filter.mpr ⟨hc, h⟩, hz⟩)⟩
  · exact ⟨c, List.mem_cons_of_mem _ (List.mem_filter.mpr ⟨hc, by simp_all⟩), hz⟩

theorem pair_addOrg_of_pair {edge : Nat → Nat → Bool} {comps : List (List Nat)}
    {a b : Nat} {c : List Nat} (hc : c ∈ comps) (ha : a ∈ c) (hb : b ∈ c) (x : Nat) :
    ∃ c2 ∈ addOrg edge comps x, a ∈ c2 ∧ b ∈ c2 := by
  by_cases h : c.any (edge x) = true
  · exact ⟨_, List.mem_cons_self _ _,
      List.mem_cons_of_mem x (List.mem_flatten.mpr ⟨c, List.mem_filter.mpr ⟨hc, h⟩, ha⟩),
      List.mem_cons_of_mem x (List.mem_flatten.mpr ⟨c, List.mem_filter.mpr ⟨hc, h⟩, hb⟩)⟩
  · exact ⟨c, List.mem_cons_of_mem _ (List.mem_filter.mpr ⟨hc, by simp_all⟩), ha, hb⟩

theorem processed_stays {edge : Nat → Nat → Bool} :
    ∀ (orgs : List Nat) (comps : List (List Nat)) (z : Nat),
    (∃ c ∈ comps, z ∈ c) → ∃ c ∈ orgs.foldl (addOrg edge) comps, z ∈ c := by
  intro orgs
  induction orgs with
  | nil => intro comps z h; exact h
  | cons x rest ih =>
      intro comps z h
      obtain ⟨c, hc, hz⟩ := h
      simp only [List.foldl_cons]
      exact ih _ z (mem_addOrg_of_mem hc hz x)

theorem pair_stays {edge : Nat → Nat → Bool} :
    ∀ (orgs : List Nat) (comps : List (List Nat)) (a b : Nat),
    (∃ c ∈ comps, a ∈ c ∧ b ∈ c) →
    ∃ c ∈ orgs.foldl (addOrg edge) comps, a ∈ c ∧ b ∈ c := by
  intro orgs
  induction orgs with
  | nil => intro comps a b h; exact h
  | cons x rest ih =>
      intro comps a b h
      obtain ⟨c, hc, ha, hb⟩ := h
      simp only [List.foldl_cons]
      exact ih _ a b (pair_addOrg_of_pair hc ha hb x)

theorem self_mem_addOrg (edge : Nat → Nat → Bool) (comps : List (List Nat)) (x : Nat) :
    ∃ c ∈ addOrg edge comps x, x ∈ c :=
  ⟨_, List.mem_cons_self _ _, List.mem_cons_self _ _⟩

theorem link_half {edge : Nat → Nat → Bool} :
    ∀ (orgs : List Nat) (comps : List (List Nat)) (a b : Nat), edge b a = true →
    (∃ c ∈ comps, a ∈ c) → b ∈ orgs →
    ∃ c ∈ orgs.foldl (addOrg edge) comps, a ∈ c ∧ b ∈ c := by
  intro orgs
  induction orgs with
  | nil => intro comps a b _ _ hb; exact absurd hb (List.not_mem_nil b)
  | cons x rest ih =>
      intro comps a b hedge hcomp hb
      obtain ⟨c, hc, ha⟩ := hcomp
      simp only [List.foldl_cons]
      by_cases hxb : x = b
      · subst hxb
        have hany : c.any (edge x) = true := List.any_eq_true.mpr ⟨a, ha, hedge⟩
        apply pair_stays rest
        exact ⟨_, List.mem_cons_self _ _,
          List.mem_cons_of_mem x (List.mem_flatten.mpr ⟨c, List.mem_filter.mpr ⟨hc, hany⟩, ha⟩),
          List.mem_cons_self _ _⟩
      · have hb2 : b ∈ rest := by
          rcases List.mem_cons.mp hb with h | h
          · exact absurd h.symm hxb
          · exact h
        exact ih _ a b hedge (mem_addOrg_of_mem hc ha x) hb2

theorem mem_components_foldl {edge : Nat → Nat → Bool} :
    ∀ (orgs : List Nat) (comps : List (List Nat)) (a : Nat), a ∈ orgs →
    ∃ c ∈ orgs.foldl (addOrg edge) comps, a ∈ c := by
  intro orgs
  induction orgs with
  | nil => intro comps a ha; exact absurd ha (List.not_mem_nil a)
  | cons x rest ih =>
      intro comps a ha
      simp only [List.foldl_cons]
      by_cases hxa : x = a
      · exact processed_stays rest _ a (hxa ▸ self_mem_addOrg edge comps x)
      · have ha2 : a ∈ rest := by
          rcases List.mem_cons.mp ha with h | h
          · exact absurd h.symm hxa
          · exact h
        exact ih _ a ha2

theorem edge_pair_foldl {edge : Nat → Nat → Bool} :
    ∀ (orgs : List Nat) (comps : List (List Nat)) (a b : Nat),
    edge a b = true → edge b a = true → a ∈ orgs → b ∈ orgs →
    ∃ c ∈ orgs.foldl (addOrg edge) comps, a ∈ c ∧ b ∈ c := by
  intro orgs
  induction orgs with
  | nil => intro comps a b _ _ ha _; exact absurd ha (List.not_mem_nil a)
  | cons x rest ih =>
      intro comps a b hab hba ha hb
      simp only [List.foldl_cons]
      by_cases hxa : x = a
      · have hstart : ∃ c ∈ addOrg edge comps x, a ∈ c :=
          hxa ▸ self_mem_addOrg edge comps x
        by_cases hxb : x = b
        · have heq : a = b := hxa.symm.trans hxb
          obtain ⟨c, hc, hac⟩ := hstart
          exact pair_stays rest _ a b ⟨c, hc, hac, heq ▸ hac⟩
        · have hb2 : b ∈ rest := by
            rcases List.mem_cons.mp hb with h | h
            · exact absurd h.symm hxb
            · exact h
          exact link_half rest _ a b hba hstart hb2
      · have ha2 : a ∈ rest := by
          rcases List.mem_cons.mp ha with h | h
          · exact absurd h.symm hxa
          · exact h
        by_cases hxb : x = b
        · have hstart : ∃ c ∈ addOrg edge comps x, b ∈ c :=
            hxb ▸ self_mem_addOrg edge comps x
          obtain ⟨c, hc, hbc, hac⟩ := link_half rest _ b a hab hstart ha2
          exact ⟨c, hc, hac, hbc⟩
        · have hb2 : b ∈ rest := by
            rcases List.mem_cons.mp hb with h | h
            · exact absurd h.symm hxb
            · exact h
          exact ih _ a b hab hba ha2 hb2

theorem components_two_sep {edge : Nat → Nat → Bool} {a b : Nat}
    (hba : edge b a = false) : components edge [a, b] = [[b], [a]] := by
  simp [components, addOrg, hba]

/-- C6: threshold boundary of DuplicateGrouper over a symmetric score.
(i) Two input organizations whose pairwise score is exactly the threshold
have an edge and end up in the same component, hence the same
DuplicateGroup; (ii) with the score one point below the threshold and no
other connecting path (a two-organization input), they are not grouped;
(iii) every input organization is reported, either inside a duplicate
group or as a singleton unique organization — never dropped. -/
theorem C6_grouper_threshold (score : Nat → Nat → Nat) (thr : Nat)
    (hsym : ∀ x y, score x y = score y x) :
    (∀ (orgs : List Nat) (a b : Nat), a ∈ orgs → b ∈ orgs → score a b = thr →
      scoreEdge score thr a b = true ∧
      ∃ c ∈ components (scoreEdge score thr) orgs, a ∈ c ∧ b ∈ c) ∧
    (∀ a b : Nat, a ≠ b → 0 < thr → score a b = thr - 1 →
      ¬ ∃ c ∈ components (scoreEdge score thr) [a, b], a ∈ c ∧ b ∈ c) ∧
    (∀ (orgs : List Nat) (a : Nat), a ∈ orgs →
      (∃ c ∈ duplicateGroups (scoreEdge score thr) orgs, a ∈ c) ∨
      (∃ c ∈ uniqueComponents (scoreEdge score thr) orgs, a ∈ c)) := by
  refine ⟨?_, ?_, ?_⟩
  · intro orgs a b ha hb hscore
    have hab : scoreEdge score thr a b = true := by simp [scoreEdge, hscore]
    have hba : scoreEdge score thr b a = true := by simp [scoreEdge, hsym b a, hscore]
    exact ⟨hab, edge_pair_foldl orgs [] a b hab hba ha hb⟩
  · intro a b hne hthr hscore
    have hba : scoreEdge score thr b a = false := by
      simp only [scoreEdge, hsym b a, hscore, decide_eq_false_iff_not]
      omega
    rw [components_two_sep hba]
    rintro ⟨c, hc, hac, hbc⟩
    rcases List.mem_cons.mp hc with rfl | hc
    · exact hne (List.mem_singleton.mp hac)
    · rcases List.mem_cons.mp hc with rfl | hc
      · exact hne (List.mem_singleton.mp hbc).symm
      · exact absurd hc (List.not_mem_nil c)
  · intro orgs a ha
    obtain ⟨c, hc, hac⟩ := mem_components_foldl orgs [] a ha
    have hlen : 0 < c.length := List.length_pos.mpr (fun h => by simp [h] at hac)
    rcases Nat.lt_or_ge c.length 2 with h2 | h2
    · right
      refine ⟨c, List.mem_filter.mpr ⟨hc, ?_⟩, hac⟩
      simp only [decide_eq_true_eq]
      omega
    · left
      refine ⟨c, List.mem_filter.mpr ⟨hc, ?_⟩, hac⟩
      simp only [decide_eq_true_eq]
      omega

/-- Witness for C6 at concrete inputs: threshold 70, ids 1 and 2 scoring
exactly 70 are grouped, ids 3 and 4 scoring 69 are not, and id 1 is
reported in the duplicate-groups or unique list. -/
theorem C6_witness :
    scoreEdge w6score 70 1 2 = true ∧
    (¬ ∃ c ∈ components (scoreEdge w6score 70) [3, 4], 3 ∈ c ∧ 4 ∈ c) ∧
    ((∃ c ∈ duplicateGroups (scoreEdge w6score 70) [1, 2], 1 ∈ c) ∨
     (∃ c ∈ uniqueComponents (scoreEdge w6score 70) [1, 2], 1 ∈ c)) := by
  have hsym : ∀ x y, w6score x y = w6score y x := by
    intro x y
    unfold w6score
    rw [Nat.add_comm]
  obtain ⟨h1, h2, h3⟩ := C6_grouper_threshold w6score 70 hsym
  exact ⟨(h1 [1, 2] 1 2 (by decide) (by decide) (by decide)).1,
    h2 3 4 (by decide) (by decide) (by decide),
    h3 [1, 2] 1 (by decide)⟩

theorem find?_map_key {α : Type} (key : α → Nat) (g : α → α)
    (hg : ∀ a, key (g a) = key a) (k : Nat) :
    ∀ l : List α, (l.map g).find? (fun a => decide (key a = k)) =
      (l.find? (fun a => decide (key a = k))).map g := by
  intro l
  induction l with
  | nil => rfl
  | cons x xs ih =>
      by_cases hx : key x = k
      · rw [List.map_cons, List.find?_cons_of_pos _ (by simp [hg, hx]),
          List.find?_cons_of_pos _ (by simp [hx])]
        rfl
      · rw [List.map_cons, List.find?_cons_of_neg _ (by simp [hg, hx]),
          List.find?_cons_of_neg _ (by simp [hx])]
        exact ih

theorem findDecision_after_set (s : Store) (did : Nat) (st : ExecStatus)
    (d : MergeDecision) (hfind : findDecision s did = some d) :
    (setDecisionStatus s.decisions did st).find?
        (fun x => decide (x.decisionId = did)) =
      some { d with executionStatus := st } := by
  have hd : d.decisionId = did := by
    have := List.find?_some hfind
    simpa using this
  unfold setDecisionStatus
  rw [find?_map_key MergeDecision.decisionId
    (fun x => if x.decisionId = did then { x with executionStatus := st } else x)
    (fun a => by dsimp only; split <;> rfl) did s.decisions]
  unfold findDecision at hfind
  rw [hfind]
  simp [hd]

/-- C2: DecisionLedger state machine.  For a decision present in the
store: UpdateStatus invoked while its execution status is executed or
cancelled fails with a ValidationError (no new store is produced, so
nothing changes); UpdateStatus from pending to executed or cancelled
succeeds, and the produced store's decision is terminal, so every further
UpdateStatus on it fails with a ValidationError — the transition succeeds
at most once and the terminal state is never left. -/
theorem C2_updateStatus_state_machine (s : Store) (did : Nat) (d : MergeDecision)
    (hfind : findDecision s did = some d) :
    ((d.executionStatus = .executed ∨ d.executionStatus = .cancelled) →
      ∀ ns, updateStatus s did ns = .error .validationError) ∧
    (d.executionStatus = .pending →
      ∀ ns, ns = .executed ∨ ns = .cancelled →
        ∃ s2, updateStatus s did ns = .ok s2 ∧
          ∀ ns2, updateStatus s2 did ns2 = .error .validationError) := by
  constructor
  · intro hterm ns
    have hnp : d.executionStatus ≠ .pending := by
      rcases hterm with h | h <;> simp [h]
    unfold updateStatus
    simp only [hfind]
    rw [if_pos hnp]
  · intro hpend ns hns
    have hterm2 : ∀ (st : ExecStatus), st ≠ .pending →
        ∀ ns2, updateStatus
          { s with
            decisions := setDecisionStatus s.decisions did st,
            instances := applyRemap s.instances d.instanceOrgId d.targetGlobalOrgId } did ns2 =
          .error .validationError ∧
        updateStatus
          { s with decisions := setDecisionStatus s.decisions did st } did ns2 =
          .error .validationError := by
      intro st hst ns2
      have hfind2 := findDecision_after_set s did st d hfind
      constructor
      · unfold updateStatus findDecision
        simp only [hfind2]
        rw [if_pos (by simpa using hst)]
      · unfold updateStatus findDecision
        simp only [hfind2]
        rw [if_pos (by simpa using hst)]
    rcases hns with rfl | rfl
    · refine ⟨{ s with
          decisions := setDecisionStatus s.decisions did .executed,
          instances := applyRemap s.instances d.instanceOrgId d.targetGlobalOrgId }, ?_, ?_⟩
      · unfold updateStatus
        simp only [hfind]
        rw [if_neg (by simp [hpend])]
      · intro ns2
        exact (hterm2 .executed (by simp) ns2).1
    · refine ⟨{ s with decisions := setDecisionStatus s.decisions did .cancelled }, ?_, ?_⟩
      · unfold updateStatus
        simp only [hfind]
        rw [if_neg (by simp [hpend])]
      · intro ns2
        exact (hterm2 .cancelled (by simp) ns2).2

/-- Witness for C2 at a concrete store: executing pending decision 1
produces the terminal store, on which cancellation is rejected with a
ValidationError; cancelling the still-pending decision would also have
succeeded. -/
theorem C2_witness :
    updateStatus w2store 1 ExecStatus.executed = .ok w2store2 ∧
    updateStatus w2store2 1 ExecStatus.cancelled = .error .validationError ∧
    updateStatus w2store 1 ExecStatus.cancelled ≠ .error .validationError := by
  obtain ⟨s2, hok, hfail⟩ :=
    (C2_updateStatus_state_machine w2store 1 w2decision (by decide)).2 rfl
      ExecStatus.executed (Or.inl rfl)
  have hval : updateStatus w2store 1 ExecStatus.executed = .ok w2store2 := rfl
  have hs2 : s2 = w2store2 := by
    rw [hok] at hval
    simpa using hval
  refine ⟨hval, hs2 ▸ hfail ExecStatus.cancelled, ?_⟩
  intro h
  rw [show updateStatus w2store 1 ExecStatus.cancelled =
      Except.ok { w2store with decisions := setDecisionStatus w2store.decisions 1 .cancelled } from rfl] at h
  exact Except.noConfusion h

theorem find?_append_some {α : Type} (p : α → Bool) :
    ∀ {l1 : List α} {a : α}, l1.find? p = some a → ∀ l2, (l1 ++ l2).find? p = some a := by
  intro l1
  induction l1 with
  | nil => intro a h l2; simp at h
  | cons x xs ih =>
      intro a h l2
      by_cases hx : p x = true
      · rw [List.find?_cons_of_pos _ hx] at h
        rw [List.cons_append, List.find?_cons_of_pos _ hx]
        exact h
      · rw [List.find?_cons_of_neg _ hx] at h
        rw [List.cons_append, List.find?_cons_of_neg _ hx]
        exact ih h l2

theorem upsertRecord_none {s : Store} {r : RawRecord}
    (hup : s.instances.find? (fun i => decide (i.instanceOrgId = r.instanceKey)) = none) :
    upsertRecord s r = { s with
      globals :=
        if s.globals.any (fun g => decide (g.globalOrgId = r.parentGlobalOrgId)) then s.globals
        else s.globals ++ [⟨r.parentGlobalOrgId, r.parentGlobalName, ""⟩],
      instances := s.instances ++ [⟨r.instanceKey, r.rawName, r.rawAcronym, r.parentGlobalOrgId⟩] } := by
  unfold upsertRecord
  simp only [hup]

theorem upsertRecord_some {s : Store} {r : RawRecord} {i1 : InstanceOrg}
    (hup : s.instances.find? (fun i => decide (i.instanceOrgId = r.instanceKey)) = some i1) :
    upsertRecord s r = { s with
      globals :=
        if s.globals.any (fun g => decide (g.globalOrgId = r.parentGlobalOrgId)) then s.globals
        else s.globals ++ [⟨r.parentGlobalOrgId, r.parentGlobalName, ""⟩],
      instances := s.instances.map (fun i =>
        if i.instanceOrgId = r.instanceKey then
          { i with
            instName := r.rawName,
            instAcronym := r.rawAcronym,
            currentMapping :=
              if hasExecutedDecision s.decisions i.instanceOrgId then i.currentMapping
              else r.parentGlobalOrgId }
        else i) } := by
  unfold upsertRecord
  simp only [hup]

theorem stickyInv_upsertRecord {iid tgt : Nat} {s : Store}
    (h : stickyInv iid tgt s) (r : RawRecord) :
    stickyInv iid tgt (upsertRecord s r) := by
  obtain ⟨hdec, hmap⟩ := h
  unfold mappingOf at hmap
  cases hfi : s.instances.find? (fun i => decide (i.instanceOrgId = iid)) with
  | none =>
      rw [hfi] at hmap
      simp at hmap
  | some i0 =>
      rw [hfi] at hmap
      simp only [Option.map_some'] at hmap
      have hcur : i0.currentMapping = tgt := by simpa using hmap
      have hi0 : i0.instanceOrgId = iid := by simpa using List.find?_some hfi
      cases hup : s.instances.find? (fun i => decide (i.instanceOrgId = r.instanceKey)) with
      | none =>
          rw [upsertRecord_none hup]
          refine ⟨hdec, ?_⟩
          simp only [mappingOf]
          rw [find?_append_some _ hfi]
          simp [hcur]
      | some i1 =>
          rw [upsertRecord_some hup]
          refine ⟨hdec, ?_⟩
          simp only [mappingOf]
          rw [find?_map_key InstanceOrg.instanceOrgId
            (fun i =>
              if i.instanceOrgId = r.instanceKey then
                { i with
                  instName := r.rawName,
                  instAcronym := r.rawAcronym,
                  currentMapping :=
                    if hasExecutedDecision s.decisions i.instanceOrgId then i.currentMapping
                    else r.parentGlobalOrgId }
              else i)
            (fun a => by dsimp only; split <;> rfl) iid s.instances, hfi]
          by_cases hkey : i0.instanceOrgId = r.instanceKey
          · have hdec2 : hasExecutedDecision s.decisions r.instanceKey = true := by
              rw [show r.instanceKey = iid from hkey.symm.trans hi0]
              exact hdec
            simp [hkey, hdec2, hcur]
          · simp [hkey, hcur]

theorem stickyInv_foldl_upsert {iid tgt : Nat} :
    ∀ (recs : List RawRecord) (acc : Store × Nat × Nat),
    stickyInv iid tgt acc.1 → stickyInv iid tgt (recs.foldl upsertStep acc).1 := by
  intro recs
  induction recs with
  | nil => intro acc h; exact h
  | cons r rest ih =>
      intro acc h
      simp only [List.foldl_cons]
      apply ih
      unfold upsertStep
      split
      · exact stickyInv_upsertRecord h r
      · exact stickyInv_upsertRecord h r

theorem stickyInv_reconcile {iid tgt : Nat} {s : Store} (h : stickyInv iid tgt s)
    (fetch : Except FetchError (List RawRecord)) : stickyInv iid tgt (reconcile s fetch) := by
  cases fetch with
  | error e => exact h
  | ok recs => exact stickyInv_foldl_upsert recs (s, 0, 0) h

theorem stickyInv_foldl_reconcile {iid tgt : Nat} :
    ∀ (fetches : List (Except FetchError (List RawRecord))) (s : Store),
    stickyInv iid tgt s → stickyInv iid tgt (fetches.foldl reconcile s) := by
  intro fetches
  induction fetches with
  | nil => intro s h; exact h
  | cons f rest ih =>
      intro s h
      simp only [List.foldl_cons]
      exact ih _ (stickyInv_reconcile h f)

theorem stickyInv_after_execute (s : Store) (did iid tgt : Nat) (d : MergeDecision)
    (hfind : findDecision s did = some d)
    (hiid : d.instanceOrgId = iid) (htgt : d.targetGlobalOrgId = tgt)
    (hpend : d.executionStatus = .pending)
    (i0 : InstanceOrg)
    (hinst : s.instances.find? (fun i => decide (i.instanceOrgId = iid)) = some i0)
    (s1 : Store) (hok : updateStatus s did .executed = .ok s1) :
    stickyInv iid tgt s1 := by
  have hs1 : s1 = { s with
      decisions := setDecisionStatus s.decisions did .executed,
      instances := applyRemap s.instances d.instanceOrgId d.targetGlobalOrgId } := by
    unfold updateStatus at hok
    simp only [hfind] at hok
    rw [if_neg (by simp [hpend])] at hok
    simpa using hok.symm
  subst hs1
  constructor
  · have hdid : d.decisionId = did := by simpa using List.find?_some hfind
    have hdmem : d ∈ s.decisions := List.mem_of_find?_eq_some hfind
    apply List.any_eq_true.mpr
    refine ⟨{ d with executionStatus := .executed }, ?_, ?_⟩
    · show _ ∈ setDecisionStatus s.decisions did ExecStatus.executed
      unfold setDecisionStatus
      have hgd : (fun x => if x.decisionId = did then
          { x with executionStatus := ExecStatus.executed } else x) d =
          { d with executionStatus := ExecStatus.executed } := by
        simp [hdid]
      rw [← hgd]
      exact List.mem_map_of_mem _ hdmem
    · simp [hiid]
  · simp only [mappingOf]
    show (List.find? _ (applyRemap s.instances d.instanceOrgId d.targetGlobalOrgId)).map _ = _
    rw [hiid, htgt]
    unfold applyRemap
    rw [find?_map_key InstanceOrg.instanceOrgId
      (fun i => if i.instanceOrgId = iid then { i with currentMapping := tgt } else i)
      (fun a => by dsimp only; split <;> rfl) iid s.instances, hinst]
    have hi0 : i0.instanceOrgId = iid := by simpa using List.find?_some hinst
    simp [hi0]

/-- C1: sticky remap invariant.  Once a pending MergeDecision targeting
global organization `tgt` is executed for instance `iid`, every subsequent
sequence of SyncReconciler runs — whatever parents the fetched snapshots
still report, including the original non-target organization — leaves the
instance's current-mapping pointer equal to `tgt`. -/
theorem C1_sticky_remap (s : Store) (did iid tgt : Nat) (d : MergeDecision) (s1 : Store)
    (hfind : findDecision s did = some d)
    (hiid : d.instanceOrgId = iid) (htgt : d.targetGlobalOrgId = tgt)
    (i0 : InstanceOrg)
    (hinst : s.instances.find? (fun i => decide (i.instanceOrgId = iid)) = some i0)
    (hok : updateStatus s did .executed = .ok s1) :
    ∀ fetches : List (Except FetchError (List RawRecord)),
      mappingOf (fetches.foldl reconcile s1) iid = some tgt := by
  have hpend : d.executionStatus = .pending := by
    by_contra hnp
    unfold updateStatus at hok
    simp only [hfind] at hok
    rw [if_pos hnp] at hok
    exact Except.noConfusion hok
  intro fetches
  exact (stickyInv_foldl_reconcile fetches s1
    (stickyInv_after_execute s did iid tgt d hfind hiid htgt hpend i0 hinst s1 hok)).2

/-- Witness for C1: after executing the decision remapping instance 10
from global org 2 to global org 1, a further reconciliation whose snapshot
still reports instance 10 under parent 2 leaves the mapping at 1. -/
theorem C1_witness :
    mappingOf ([Except.ok [w1record]].foldl reconcile w2store2) 10 = some 1 :=
  C1_sticky_remap w2store 1 10 1 w2decision w2store2 (by decide) (by decide) (by decide)
    ⟨10, "", "", 2⟩ (by decide) rfl [Except.ok [w1record]]

/-- C7: sync-run atomicity.  A run whose external fetch fails leaves the
stored GlobalOrganization, InstanceOrganization and MergeDecision sets and
the report cache exactly as they were, and appends a failed SyncRun row;
and whenever a run changes the report-cache flag at all, that run's fetch
succeeded — the cache is invalidated only by a successful run. -/
theorem C7_reconcile_atomicity (s : Store) :
    (∀ e : FetchError,
      (reconcile s (.error e)).globals = s.globals ∧
      (reconcile s (.error e)).instances = s.instances ∧
      (reconcile s (.error e)).decisions = s.decisions ∧
      (reconcile s (.error e)).reportCacheValid = s.reportCacheValid ∧
      (reconcile s (.error e)).syncRuns = s.syncRuns ++ [⟨.failure, 0, 0⟩]) ∧
    (∀ fetch : Except FetchError (List RawRecord),
      (reconcile s fetch).reportCacheValid ≠ s.reportCacheValid →
      ∃ recs, fetch = .ok recs) := by
  constructor
  · intro e
    exact ⟨rfl, rfl, rfl, rfl, rfl⟩
  · intro fetch h
    cases fetch with
    | error e => exact absurd rfl h
    | ok recs => exact ⟨recs, rfl⟩

/-- Witness for C7 at the empty store: a failed fetch changes nothing but
the run log, and the run that did flip the cache flag was a successful
one. -/
theorem C7_witness :
    (reconcile w7store (.error .externalFetchError)).globals = w7store.globals ∧
    (reconcile w7store (.error .externalFetchError)).instances = w7store.instances ∧
    (reconcile w7store (.error .externalFetchError)).decisions = w7store.decisions ∧
    (reconcile w7store (.error .externalFetchError)).reportCacheValid = w7store.reportCacheValid ∧
    (reconcile w7store (.error .externalFetchError)).syncRuns =
      w7store.syncRuns ++ [⟨RunOutcome.failure, 0, 0⟩] ∧
    (∃ recs, (Except.ok [] : Except FetchError (List RawRecord)) = .ok recs) := by
  obtain ⟨h1, h2, h3, h4, h5⟩ := (C7_reconcile_atomicity w7store).1 FetchError.externalFetchError
  exact ⟨h1, h2, h3, h4, h5,
    (C7_reconcile_atomicity w7store).2 (Except.ok []) (by decide)⟩

/-- C3: single-flight reconciliation.  A trigger while a run is in flight
returns the sync-in-progress conflict result and leaves the guard state
unchanged (no second run starts); every state reachable from the idle
state has at most one run in flight, so two runs never execute
concurrently; and the frontend's own syncing guard refuses to start a
sync while one is running. -/
theorem C3_single_flight :
    (∀ s : SyncGuardState, 0 < s.inFlight →
      triggerSyncGuard s = (.conflictError, s)) ∧
    (∀ s : SyncGuardState, GuardReachable s → s.inFlight ≤ 1) ∧
    (∀ b : Bool, b = true → frontendTriggerStarts b = false) := by
  refine ⟨?_, ?_, ?_⟩
  · intro s h
    unfold triggerSyncGuard
    rw [if_pos h]
  · intro s h
    induction h with
    | init => decide
    | step hr hstep ih =>
        cases hstep with
        | trigger =>
            unfold triggerSyncGuard
            split
            · exact ih
            · simp
              omega
        | finish =>
            unfold finishSyncRun
            simp
            omega
  · intro b hb
    rw [hb]
    rfl

/-- Witness for C3: with one run in flight the trigger reports the
conflict and changes nothing; the one-run state is reachable and within
the bound; the frontend guard refuses while syncing. -/
theorem C3_witness :
    triggerSyncGuard ⟨1⟩ = (TriggerResult.conflictError, ⟨1⟩) ∧
    SyncGuardState.inFlight ⟨1⟩ ≤ 1 ∧
    frontendTriggerStarts true = false := by
  refine ⟨C3_single_flight.1 ⟨1⟩ (by decide), C3_single_flight.2.1 ⟨1⟩ ?_,
    C3_single_flight.2.2 true rfl⟩
  exact GuardReachable.step GuardReachable.init (GuardStep.trigger ⟨0⟩)

theorem recordAll_aux {α : Type} (outcome : α → Bool) :
    ∀ (insts : List α) (acc : Nat × Nat × List α),
    (insts.foldl (recordStep outcome) acc).2.2 = acc.2.2 ++ insts ∧
    (insts.foldl (recordStep outcome) acc).1 + (insts.foldl (recordStep outcome) acc).2.1 =
      acc.1 + acc.2.1 + insts.length := by
  intro insts
  induction insts with
  | nil => intro acc; simp
  | cons i rest ih =>
      intro acc
      simp only [List.foldl_cons]
      obtain ⟨h1, h2⟩ := ih (recordStep outcome acc i)
      by_cases hi : outcome i = true
      · constructor
        · rw [h1]
          simp [recordStep, hi]
        · rw [h2]
          simp [recordStep, hi]
          omega
      · constructor
        · rw [h1]
          simp [recordStep, hi]
        · rw [h2]
          simp [recordStep, hi]
          omega

/-- C8: batch decision creation is per-item, not all-or-nothing.  For
every list of instances and any per-item outcomes, the loop attempts every
instance in order — a failure on one item never prevents the remaining
attempts — and the reported success count plus failure count equals the
number of instances. -/
theorem C8_batch_per_item {α : Type} (outcome : α → Bool) (insts : List α) :
    (recordAllDecisions outcome insts).2.2 = insts ∧
    (recordAllDecisions outcome insts).1 + (recordAllDecisions outcome insts).2.1 =
      insts.length := by
  obtain ⟨h1, h2⟩ := recordAll_aux outcome insts (0, 0, [])
  unfold recordAllDecisions
  constructor
  · rw [h1]
    simp
  · rw [h2]
    simp

/-- C9 counterexample: the two dashboard filter implementations disagree.
With a LOW risk filter, a mapping with no stored risk_level but a match
percent of 90 is dropped by the standalone MappingDashboard filter (which
compares risk_level) yet kept by the filter embedded in GOsummary.jsx
(which derives the risk from match_percent). -/
theorem C9_counterexample :
    filterDashStandalone w9filters [w9item] ≠ filterDashEmbedded w9filters [w9item] := by
  decide

theorem filterGoItem_congr (f : DashFilters) (g : DashGoItem)
    (h : ∀ m ∈ g.mappings, m.risk_level = getRiskFromPercent m.match_percent) :
    filterGoItemStandalone f g = filterGoItemEmbedded f g := by
  have hfm : g.mappings.filter (mappingKeepStandalone f) =
      g.mappings.filter (mappingKeepEmbedded f) := by
    apply List.filter_congr
    intro m hm
    unfold mappingKeepStandalone mappingKeepEmbedded
    rw [h m hm]
  simp only [filterGoItemStandalone, filterGoItemEmbedded]
  rw [hfm]

/-- C9 (amended): the standalone MappingDashboard filter and the filter of
the dashboard embedded in GOsummary.jsx agree on a dataset exactly when
every mapping's stored risk_level equals the risk bucket derived from its
match_percent; on datasets violating that consistency (for example a null
risk_level with match percent 90 under a LOW risk filter) they differ, as
the counterexample shows. -/
theorem C9_filters_agree_when_consistent (f : DashFilters) :
    ∀ data : List DashGoItem,
    (∀ g ∈ data, ∀ m ∈ g.mappings, m.risk_level = getRiskFromPercent m.match_percent) →
    filterDashStandalone f data = filterDashEmbedded f data := by
  intro data
  induction data with
  | nil => intro _; rfl
  | cons g rest ih =>
      intro hcons
      have hhead : filterGoItemStandalone f g = filterGoItemEmbedded f g :=
        filterGoItem_congr f g (fun m hm => hcons g (List.mem_cons_self g rest) m hm)
      have htail : filterDashStandalone f rest = filterDashEmbedded f rest :=
        ih (fun g2 hg2 m hm => hcons g2 (List.mem_cons_of_mem g hg2) m hm)
      unfold filterDashStandalone filterDashEmbedded at htail ⊢
      simp only [List.filterMap_cons]
      cases hgo : f.goFilter with
      | none =>
          simp only [hgo] at htail ⊢
          rw [hhead]
          cases hv : filterGoItemEmbedded f g with
          | none => simp only [hv]; exact htail
          | some b => simp only [hv]; rw [htail]
      | some v =>
          simp only [hgo] at htail ⊢
          by_cases hname : g.global_org_name ≠ v
          · simp only [if_pos hname]
            exact htail
          · simp only [if_neg hname]
            rw [hhead]
            cases hv : filterGoItemEmbedded f g with
            | none => simp only [hv]; exact htail
            | some b => simp only [hv]; rw [htail]

/-- Witness for C9's amended statement: on a dataset whose stored
risk_level agrees with the derived risk, the two filters produce the same
result. -/
theorem C9_witness :
    filterDashStandalone w9filters [w9consItem] = filterDashEmbedded w9filters [w9consItem] :=
  C9_filters_agree_when_consistent w9filters [w9consItem] (by decide)

/-- C10: pagination clamping is safe.  clampPage returns 1 when
totalPages is nonpositive and otherwise a page in [1, totalPages]; the
slice computed from the clamped page is always an in-range (possibly
empty) sublist of at most itemsPerPage entries; and with a positive
itemsPerPage the clamped slice of a non-empty list is never empty. -/
theorem C10_pagination_safe :
    (∀ page totalPages : Int, totalPages ≤ 0 → clampPage page totalPages = 1) ∧
    (∀ page totalPages : Int, 0 < totalPages →
      1 ≤ clampPage page totalPages ∧ clampPage page totalPages ≤ totalPages) ∧
    (∀ (α : Type) (l : List α) (page : Int) (ipp : Nat),
      (paginateSlice l page ipp).length ≤ ipp ∧ paginateSlice l page ipp <:+: l) ∧
    (∀ (α : Type) (l : List α) (page : Int) (ipp : Nat), 0 < ipp → l ≠ [] →
      paginateSlice l page ipp ≠ []) := by
  refine ⟨?_, ?_, ?_, ?_⟩
  · intro page totalPages h
    unfold clampPage
    rw [if_pos h]
  · intro page totalPages h
    unfold clampPage
    split_ifs <;> constructor <;> omega
  · intro α l page ipp
    constructor
    · unfold paginateSlice
      rw [List.length_take]
      exact min_le_left _ _
    · exact (List.take_prefix _ _).isInfix.trans (List.drop_suffix _ _).isInfix
  · intro α l page ipp hipp hne
    have hlen : 0 < l.length := List.length_pos.mpr hne
    have hq : (l.length + ipp - 1) / ipp * ipp ≤ l.length + ipp - 1 := Nat.div_mul_le_self _ _
    have hq1 : 1 ≤ (l.length + ipp - 1) / ipp := (Nat.le_div_iff_mul_le hipp).mpr (by omega)
    have htp : jsTotalPages l.length ipp = (l.length + ipp - 1) / ipp := by
      unfold jsTotalPages
      omega
    have hclamp : 1 ≤ clampPage page ((jsTotalPages l.length ipp : Int)) ∧
        clampPage page ((jsTotalPages l.length ipp : Int)) ≤
          (jsTotalPages l.length ipp : Int) := by
      have htp1 : 1 ≤ jsTotalPages l.length ipp := le_max_right _ _
      unfold clampPage
      split_ifs <;> constructor <;> omega
    have hkk : ((clampPage page ((jsTotalPages l.length ipp : Int))).toNat - 1) * ipp <
        l.length := by
      obtain ⟨h1, h2⟩ := hclamp
      have h3 : (clampPage page ((jsTotalPages l.length ipp : Int))).toNat ≤
          jsTotalPages l.length ipp := by omega
      have h4 : ((clampPage page ((jsTotalPages l.length ipp : Int))).toNat - 1) * ipp ≤
          ((l.length + ipp - 1) / ipp - 1) * ipp := by
        apply Nat.mul_le_mul_right
        omega
      have h5 : ((l.length + ipp - 1) / ipp - 1) * ipp ≤ l.length + ipp - 1 - ipp := by
        rw [Nat.sub_mul, one_mul]
        omega
      omega
    intro hcontra
    have hzero : (paginateSlice l page ipp).length = 0 := by rw [hcontra]; rfl
    unfold paginateSlice at hzero
    rw [List.length_take, List.length_drop] at hzero
    omega

/-- Witness for C10 at concrete inputs: page 7 of a 3-item list at 2 items
per page — the clamp lands in range and the slice is a short non-empty
infix. -/
theorem C10_witness :
    clampPage 7 0 = 1 ∧
    (1 ≤ clampPage 7 2 ∧ clampPage 7 2 ≤ 2) ∧
    ((paginateSlice [1, 2, 3] 7 2).length ≤ 2 ∧ paginateSlice [1, 2, 3] 7 2 <:+: [1, 2, 3]) ∧
    paginateSlice [1, 2, 3] 7 2 ≠ [] :=
  ⟨C10_pagination_safe.1 7 0 (by decide),
   C10_pagination_safe.2.1 7 2 (by decide),
   C10_pagination_safe.2.2.1 Nat [1, 2, 3] 7 2,
   C10_pagination_safe.2.2.2 Nat [1, 2, 3] 7 2 (by decide) (by decide)⟩
